import Mathlib

/-!
Verification of the sparse-record codec and batched-inference core of the
movie-recommender workshop notebook (`03_factorization_machines_regression.ipynb`).

The development shallowly embeds:

1. the Python expression `batches = int(X_pred.shape[0]/batch_size)` (cell-50),
   including the semantics of Python 3 true division of integers, which produces a
   correctly-rounded IEEE-754 binary64 value (round to nearest, ties to even) that
   `int(...)` then truncates toward zero — this is *not* integer floor division;
2. the batched inference loop of cell-50 (`runBatched` below), which slices
   `X_pred[i*batch_size : (i+1)*batch_size]`, calls the remote predictor on each
   slice, and accumulates `r['predicted_label']` for each returned result;
3. the accuracy expression `np.sum(Y_pred == predictions) / len(Y_pred)` of
   cell-53, including NumPy elementwise-comparison broadcasting semantics;
4. the sparse record codec: `writeDatasetToProtobuf` (cell-35) and the
   encoder/decoder pair it delegates to.  The byte-level serializer
   (`smac.write_spmatrix_to_sparse_tensor`) and the paired deserializer are not
   part of this repository, so they are modelled from the specification's record
   format (length-prefixed records; fields in order: feature count, nonzero
   count, index list, value list, label; 32-bit floats for on-wire values).

Rationals stand in for IEEE-754 values: every finite binary64/binary32 value is a
rational, and rounding is modelled exactly (`roundFloat` below).  Overflow to
infinity (quotients at or above 2^1024, which Python surfaces as `OverflowError`)
and division by zero (`ZeroDivisionError`) are outside the modelled domain; all
theorems that touch division take `0 < batchSize` style hypotheses.
-/

set_option maxRecDepth 8000

/-! ### Python float semantics: correctly rounded binary64 division -/

/-- Round-half-to-even of a rational to an integer: the tie-breaking rule used by
IEEE-754 round-to-nearest arithmetic. -/
def rneInt (q : ℚ) : ℤ :=
  let f := ⌊q⌋
  let r := q - (f : ℚ)
  if r < 1/2 then f
  else if 1/2 < r then f + 1
  else if f % 2 = 0 then f else f + 1

/-- Binade exponent of a positive rational: the unique `e` with `2^e ≤ q < 2^(e+1)`.
Computed from the binary logarithms of numerator and denominator, with a one-step
correction.  Returns `0` on nonpositive input (never used there). -/
def qexp (q : ℚ) : ℤ :=
  if q ≤ 0 then 0
  else
    let e0 : ℤ := (Nat.log2 q.num.toNat : ℤ) - (Nat.log2 q.den : ℤ)
    if (2 : ℚ) ^ e0 ≤ q then e0 else e0 - 1

/-- Round a rational to the nearest floating-point value with `prec` significant
bits and minimum grid exponent `minExp` (the subnormal range), ties to even.
With `prec = 53, minExp = -1074` this is IEEE-754 binary64 rounding; with
`prec = 24, minExp = -149` it is binary32 rounding.  Overflow is not modelled. -/
def roundFloat (prec : ℕ) (minExp : ℤ) (q : ℚ) : ℚ :=
  if q = 0 then 0
  else
    let a := |q|
    let p : ℤ := max (qexp a - ((prec : ℤ) - 1)) minExp
    let m := rneInt (a / 2 ^ p)
    (if q < 0 then -1 else 1) * (m : ℚ) * 2 ^ p

/-- IEEE-754 binary64 (Python `float`) rounding of a rational. -/
def f64 (q : ℚ) : ℚ := roundFloat 53 (-1074) q

/-- IEEE-754 binary32 rounding: the fixed-width on-wire float type chosen by the
record format for values and labels. -/
def f32 (q : ℚ) : ℚ := roundFloat 24 (-149) q

/-- Python 3 true division of two machine integers: the exact rational quotient,
correctly rounded to binary64.  (`b = 0` raises `ZeroDivisionError` in Python and
is outside the modelled domain.) -/
def pyFloatDiv (n b : ℕ) : ℚ := f64 ((n : ℚ) / (b : ℚ))

/-- Python `int(...)` applied to a float: truncation toward zero. -/
def pyTrunc (q : ℚ) : ℤ := if 0 ≤ q then ⌊q⌋ else -⌊-q⌋

/-- Cell-50: `batches = int(X_pred.shape[0]/batch_size)` — the number of batches
the inference loop runs, computed by float true division then truncation. -/
def batches (n batch_size : ℕ) : ℕ := (pyTrunc (pyFloatDiv n batch_size)).toNat

/-! ### Data model -/

/-- One example of the sparse dataset: nonzero feature indices, aligned values, and
the rating label.  `featureCount` is the total addressable feature dimension. -/
structure SparseRow where
  featureCount : ℕ
  indices : List ℕ
  values : List ℚ
  label : ℚ
deriving DecidableEq

/-- An ordered sequence of sparse rows sharing one feature dimension. -/
structure SparseDataset where
  featureCount : ℕ
  rows : List SparseRow
deriving DecidableEq

/-- Row invariant: aligned index/value lengths, unique in-bounds indices. -/
def SparseRow.wf (r : SparseRow) : Prop :=
  r.indices.length = r.values.length ∧ r.indices.Nodup ∧ ∀ i ∈ r.indices, i < r.featureCount

/-- Dataset validity: non-empty, uniform feature count, well-formed rows. -/
def SparseDataset.wf (d : SparseDataset) : Prop :=
  d.rows ≠ [] ∧ ∀ r ∈ d.rows, r.featureCount = d.featureCount ∧ r.wf

instance (r : SparseRow) : Decidable r.wf := by
  unfold SparseRow.wf; infer_instance

instance (d : SparseDataset) : Decidable d.wf := by
  unfold SparseDataset.wf; infer_instance

/-- One prediction returned by the remote factorization-machines endpoint for one
row, as consumed in cell-48/cell-50: a `predicted_label` and a `score`. -/
structure PredictionResult where
  predicted_label : ℚ
  score : ℚ
deriving DecidableEq

/-! ### Batched inference runner (cell-50) -/

/-- The slice `X_pred[i*batch_size : (i+1)*batch_size]` of cell-50.  Python slicing
clamps at the end of the sequence, as `List.drop`/`List.take` do. -/
def batchSlice {α : Type} (X : List α) (b i : ℕ) : List α :=
  (X.drop (i * b)).take b

/-- Loop body of cell-50, one constructor step per iteration of
`for i in range(batches)`.  State: current batch index `i`, remaining iteration
count, and the accumulated `predictions` list.  Each step slices `X_sample`,
submits it, and appends `[r['predicted_label'] for r in result['predictions']]`.
An exception from `predict` aborts the loop: no further batch is submitted and
the partial accumulator is discarded. -/
def runBatchedGo {α ε : Type} (predict : List α → Except ε (List PredictionResult))
    (X : List α) (b : ℕ) : ℕ → ℕ → List ℚ → Except ε (List ℚ)
  | _, 0, acc => .ok acc
  | i, rem + 1, acc =>
    match predict (batchSlice X b i) with
    | .error e => .error e
    | .ok result => runBatchedGo predict X b (i + 1) rem
        (acc ++ result.map (fun r => r.predicted_label))

/-- The batched inference loop of cell-50: `batches = int(X_pred.shape[0]/batch_size)`
full batches, submitted sequentially, accumulating predicted labels. -/
def runBatched {α ε : Type} (X : List α) (batch_size : ℕ)
    (predict : List α → Except ε (List PredictionResult)) : Except ε (List ℚ) :=
  runBatchedGo predict X batch_size 0 (batches X.length batch_size) []

/-- Trace of the slices the loop actually submits to `predict`, mirroring
`runBatchedGo` step for step (a slice is recorded when `predict` is called on it;
after a failing call the loop stops). -/
def submittedGo {α ε : Type} (predict : List α → Except ε (List PredictionResult))
    (X : List α) (b : ℕ) : ℕ → ℕ → List (List α)
  | _, 0 => []
  | i, rem + 1 =>
    batchSlice X b i ::
      (match predict (batchSlice X b i) with
       | .error _ => []
       | .ok _ => submittedGo predict X b (i + 1) rem)

/-- The slices submitted by `runBatched X batch_size predict`. -/
def submittedSlices {α ε : Type} (X : List α) (batch_size : ℕ)
    (predict : List α → Except ε (List PredictionResult)) : List (List α) :=
  submittedGo predict X batch_size 0 (batches X.length batch_size)

/-- A conforming remote predictor: one `PredictionResult` per submitted row, in row
order, produced row-wise by `f`.  This is the §3 contract of the external endpoint
(`PredictionResult ... one per row in a PredictionBatch, order-preserving`). -/
def rowPredictor {α ε : Type} (f : α → PredictionResult) :
    List α → Except ε (List PredictionResult) :=
  fun s => .ok (s.map f)

/-- A stub predictor for failure injection: behaves like a conforming row-wise
predictor except that it throws on the singleton batch `[t]`. -/
def stubFailAt (t : ℕ) : List ℕ → Except String (List PredictionResult) :=
  fun s => if s = [t] then .error "boom"
           else .ok (s.map (fun n => ⟨(n : ℚ), 0⟩))

/-! ### Accuracy (cell-53) -/

/-- A Python float result that may be the IEEE-754 `nan` (which `0/0` produces in
NumPy true division, with a warning rather than an exception). -/
inductive PyNum where
  | num (q : ℚ)
  | nan
deriving DecidableEq

/-- NumPy raises a broadcast error when elementwise comparison gets incompatible
shapes (neither equal nor either side of length 1). -/
inductive NpError where
  | broadcastMismatch
deriving DecidableEq

/-- NumPy elementwise `==` on two 1-d float arrays, with broadcasting: equal
lengths compare pointwise; a length-1 operand is broadcast against the other;
any other shape combination raises. -/
def npEqList (a b : List ℚ) : Except NpError (List Bool) :=
  if a.length = b.length then
    .ok (List.zipWith (fun x y => if x = y then true else false) a b)
  else
    match a, b with
    | [x], ys => .ok (ys.map (fun y => if x = y then true else false))
    | xs, [y] => .ok (xs.map (fun x => if x = y then true else false))
    | _, _ => .error .broadcastMismatch

/-- The `np.sum` of a boolean array: the number of `True` entries. -/
def npSum (bs : List Bool) : ℕ := bs.count true

/-- Cell-53: `np.sum(Y_pred == predictions) / len(Y_pred)`, with `actual = Y_pred`
and `predicted = predictions`.  The divisor is `len(Y_pred)`; when it is zero the
NumPy scalar division `0/0` yields `nan` (not an exception). -/
def computeAccuracy (predicted actual : List ℚ) : Except NpError PyNum :=
  match npEqList actual predicted with
  | .error e => .error e
  | .ok bs =>
    if actual.length = 0 then .ok PyNum.nan
    else .ok (PyNum.num ((npSum bs : ℚ) / (actual.length : ℚ)))

/-- Number of positions where the two label sequences agree exactly. -/
def matchCount (predicted actual : List ℚ) : ℕ :=
  npSum (List.zipWith (fun x y => if x = y then true else false) actual predicted)

/-- The observable of claim C3: the run returned an ordinary number lying in the
unit interval. -/
def isUnitNum : Except NpError PyNum → Prop
  | .ok (PyNum.num q) => 0 ≤ q ∧ q ≤ 1
  | _ => False

/-! ### Sparse record codec (cell-35 and the spec's paired decoder) -/

/-- One word of the on-wire stream: a fixed-width integer or a fixed-width
(32-bit) float.  Byte widths are an implementation choice per §6; the model keeps
the field structure and quantizes float words to binary32 precision. -/
inductive WireWord where
  | int (n : ℕ)
  | flt (q : ℚ)
deriving DecidableEq

inductive EncodingError where
  | invalidDataset
deriving DecidableEq

inductive DecodingError where
  | malformed
  | truncated
  | badIndex
  | emptyStream
  | mixedFeatureCounts
deriving DecidableEq

/-- Modelled from the spec: one serialized record of the persisted format of §6 —
length-prefixed, fields in fixed order: feature count, nonzero count, index list,
value list (same count as indices, 32-bit floats), label (32-bit float).  The
byte-level writer (`smac.write_spmatrix_to_sparse_tensor`, called from cell-35) is
an external library, not part of this repository. -/
def recordPayload (r : SparseRow) : List WireWord :=
  WireWord.int r.featureCount :: WireWord.int r.indices.length ::
    (r.indices.map WireWord.int
      ++ r.values.map (fun v => WireWord.flt (f32 v))
      ++ [WireWord.flt (f32 r.label)])

def encodeRow (r : SparseRow) : List WireWord :=
  WireWord.int (recordPayload r).length :: recordPayload r

/-- Modelled from the spec: `encode(dataset) -> BinaryRecordStream` (§4.1).  Raises
`EncodingError` on an empty dataset, a row with mismatched `featureCount`,
mismatched index/value lengths, or duplicate indices; otherwise concatenates the
length-prefixed records in row order. -/
def encode (d : SparseDataset) : Except EncodingError (List WireWord) :=
  if d.rows ≠ [] ∧ ∀ r ∈ d.rows,
      r.featureCount = d.featureCount ∧ r.indices.length = r.values.length ∧ r.indices.Nodup
  then .ok ((d.rows.map encodeRow).flatten)
  else .error .invalidDataset

/-- Split a stream into its length-prefixed records.  The fuel argument (called
with the stream length) only bounds the recursion; it never runs out on a stream
it is called on. -/
def splitRecords : ℕ → List WireWord → Except DecodingError (List (List WireWord))
  | _, [] => .ok []
  | 0, _ :: _ => .error .truncated
  | fuel + 1, WireWord.int len :: rest =>
    if len ≤ rest.length then
      match splitRecords fuel (rest.drop len) with
      | .error e => .error e
      | .ok recs => .ok (rest.take len :: recs)
    else .error .truncated
  | _ + 1, WireWord.flt _ :: _ => .error .malformed

/-- Read a run of integer words. -/
def parseNats : List WireWord → Option (List ℕ)
  | [] => some []
  | WireWord.int n :: rest => (parseNats rest).map (fun l => n :: l)
  | WireWord.flt _ :: _ => none

/-- Read a run of float words. -/
def parseFlts : List WireWord → Option (List ℚ)
  | [] => some []
  | WireWord.flt q :: rest => (parseFlts rest).map (fun l => q :: l)
  | WireWord.int _ :: _ => none

/-- Modelled from the spec: parse one record payload (feature count, nonzero
count, indices, values, label), raising `DecodingError` on a declared-count
mismatch or an index at or above the feature count (§4.1). -/
def parsePayload (w : List WireWord) : Except DecodingError SparseRow :=
  match w with
  | WireWord.int fc :: WireWord.int k :: rest =>
    match parseNats (rest.take k), parseFlts ((rest.drop k).take k), rest.drop (2 * k) with
    | some idxs, some vals, [WireWord.flt lab] =>
      if idxs.length = k ∧ vals.length = k then
        if ∀ i ∈ idxs, i < fc then .ok ⟨fc, idxs, vals, lab⟩
        else .error .badIndex
      else .error .malformed
    | _, _, _ => .error .malformed
  | _ => .error .malformed

/-- Parse every record payload in order, failing fast on the first malformed one. -/
def parseRecords : List (List WireWord) → Except DecodingError (List SparseRow)
  | [] => .ok []
  | w :: ws =>
    match parsePayload w with
    | .error e => .error e
    | .ok r =>
      match parseRecords ws with
      | .error e => .error e
      | .ok rs => .ok (r :: rs)

/-- Modelled from the spec: `decode(stream) -> SparseDataset` (§4.1), the inverse
of `encode`.  Splits the length-prefixed records, parses each, and rejects an
empty stream or records with differing feature counts. -/
def decode (stream : List WireWord) : Except DecodingError SparseDataset :=
  match splitRecords stream.length stream with
  | .error e => .error e
  | .ok recs =>
    match parseRecords recs with
    | .error e => .error e
    | .ok rows =>
      match rows with
      | [] => .error .emptyStream
      | r0 :: _ =>
        if ∀ r ∈ rows, r.featureCount = r0.featureCount then
          .ok ⟨r0.featureCount, rows⟩
        else .error .mixedFeatureCounts

/-- A row after on-wire quantization: values and label rounded to binary32. -/
def f32Row (r : SparseRow) : SparseRow :=
  ⟨r.featureCount, r.indices, r.values.map f32, f32 r.label⟩

/-- A dataset after on-wire quantization. -/
def f32Dataset (d : SparseDataset) : SparseDataset :=
  ⟨d.featureCount, d.rows.map f32Row⟩

/-- All values and labels of the dataset are exactly representable in the chosen
on-wire float width (binary32), i.e. quantization does not move them. -/
def SparseDataset.f32Exact (d : SparseDataset) : Prop :=
  ∀ r ∈ d.rows, (∀ v ∈ r.values, f32 v = v) ∧ f32 r.label = r.label

/-- The example row of spec §8: `featureCount = 10`, indices `[1,7]`, values
`[1.0, 1.0]`, label `4.0`. -/
def exampleRow : SparseRow := ⟨10, [1, 7], [1, 1], 4⟩

/-- A singleton dataset holding `exampleRow`. -/
def exampleDataset : SparseDataset := ⟨10, [exampleRow]⟩

/-! ### External effects of cell-35 -/

/-- An externally visible side effect.  The only one the modelled code performs is
the S3 upload executed by the persistence collaborator (`boto3 ... upload_fileobj`). -/
inductive Effect where
  | s3Upload (bucket obj : String) (content : List WireWord)
deriving DecidableEq

/-- Cell-35 `writeDatasetToProtobuf(X, y, bucket, prefix, key)`, with its effect
trace modelled statement by statement from the source: `buf = io.BytesIO()` and
`smac.write_spmatrix_to_sparse_tensor(buf, X, y)` write only to the in-memory
buffer (no external effect); `buf.seek(0)` is in-memory; the single external
effect is the upload of the buffer, and the returned value is the S3 URI string
`'s3://{}/{}'.format(bucket, obj)` with `obj = '{}/{}'.format(prefix, key)`. -/
def writeDatasetToProtobuf (d : SparseDataset) (bucket pfx key : String) :
    Except EncodingError (String × List Effect) :=
  match encode d with
  | .error e => .error e
  | .ok buf =>
    let obj := pfx ++ "/" ++ key
    .ok ("s3://" ++ bucket ++ "/" ++ obj, [Effect.s3Upload bucket obj buf])

/-! ### Evaluation helpers for the float model -/

theorem nat_log2_eval {n k : ℕ} (h1 : 2 ^ k ≤ n) (h2 : n < 2 ^ (k + 1)) :
    Nat.log2 n = k := by
  rw [Nat.log2_eq_log_two]
  exact Nat.log_eq_of_pow_le_of_lt_pow h1 h2

theorem rneInt_intCast (z : ℤ) (q : ℚ) (h : q = (z : ℚ)) : rneInt q = z := by
  unfold rneInt
  rw [h, Int.floor_intCast]
  norm_num

theorem roundFloat_eval (prec : ℕ) (minExp e p m : ℤ) (q : ℚ)
    (hq : 0 < q) (he : qexp q = e) (hp : max (e - (prec - 1)) minExp = p)
    (hm : rneInt (q / 2 ^ p) = m) : roundFloat prec minExp q = (m : ℚ) * 2 ^ p := by
  simp only [roundFloat]
  rw [if_neg hq.ne', abs_of_pos hq, he, hp, hm, if_neg (not_lt.mpr hq.le)]
  ring

theorem qexp_5 : qexp 5 = 2 := by
  have h1 : Nat.log2 5 = 2 := nat_log2_eval (by norm_num) (by norm_num)
  have h2 : Nat.log2 1 = 0 := nat_log2_eval (by norm_num) (by norm_num)
  unfold qexp
  norm_num [show (5:ℤ).toNat = 5 from rfl, h1, h2]

theorem qexp_3 : qexp 3 = 1 := by
  have h1 : Nat.log2 3 = 1 := nat_log2_eval (by norm_num) (by norm_num)
  have h2 : Nat.log2 1 = 0 := nat_log2_eval (by norm_num) (by norm_num)
  unfold qexp
  norm_num [show (3:ℤ).toNat = 3 from rfl, h1, h2]

theorem qexp_1 : qexp 1 = 0 := by
  have h2 : Nat.log2 1 = 0 := nat_log2_eval (by norm_num) (by norm_num)
  unfold qexp
  norm_num [show (1:ℤ).toNat = 1 from rfl, h2]

theorem qexp_4 : qexp 4 = 2 := by
  have h1 : Nat.log2 4 = 2 := nat_log2_eval (by norm_num) (by norm_num)
  have h2 : Nat.log2 1 = 0 := nat_log2_eval (by norm_num) (by norm_num)
  unfold qexp
  norm_num [show (4:ℤ).toNat = 4 from rfl, h1, h2]

theorem qexp_big : qexp 9007199254740993 = 53 := by
  have h1 : Nat.log2 9007199254740993 = 53 := nat_log2_eval (by norm_num) (by norm_num)
  have h2 : Nat.log2 1 = 0 := nat_log2_eval (by norm_num) (by norm_num)
  unfold qexp
  norm_num [show (9007199254740993:ℤ).toNat = 9007199254740993 from rfl, h1, h2]

theorem rneInt_tie_even (q : ℚ) (f : ℤ) (hf : ⌊q⌋ = f) (hr : q - (f : ℚ) = 1/2)
    (he : f % 2 = 0) : rneInt q = f := by
  simp only [rneInt]
  rw [hf, hr, if_neg (by norm_num), if_neg (by norm_num), if_pos he]

theorem pyFloatDiv_5_1 : pyFloatDiv 5 1 = 5 := by
  have h5 : ((5 : ℕ) : ℚ) / ((1 : ℕ) : ℚ) = 5 := by norm_num
  unfold pyFloatDiv f64
  rw [h5, roundFloat_eval 53 (-1074) 2 (-50) (5 * 2 ^ 50) 5 (by norm_num) qexp_5
    (by norm_num) (rneInt_intCast _ _ (by push_cast; norm_num))]
  push_cast
  norm_num

theorem pyFloatDiv_6_2 : pyFloatDiv 6 2 = 3 := by
  have h6 : ((6 : ℕ) : ℚ) / ((2 : ℕ) : ℚ) = 3 := by norm_num
  unfold pyFloatDiv f64
  rw [h6, roundFloat_eval 53 (-1074) 1 (-51) (3 * 2 ^ 51) 3 (by norm_num) qexp_3
    (by norm_num) (rneInt_intCast _ _ (by push_cast; norm_num))]
  push_cast
  norm_num

/-- The float quotient `(2^53 + 1) / 1` in Python: the exact value `2^53 + 1` is not
representable in binary64; it is a tie between `2^53` and `2^53 + 2`, and ties-to-even
rounds it down to `2^53 = 9007199254740992`. -/
theorem pyFloatDiv_big : pyFloatDiv 9007199254740993 1 = 9007199254740992 := by
  have hq : ((9007199254740993 : ℕ) : ℚ) / ((1 : ℕ) : ℚ) = 9007199254740993 := by norm_num
  unfold pyFloatDiv f64
  rw [hq, roundFloat_eval 53 (-1074) 53 1 4503599627370496 9007199254740993
    (by norm_num) qexp_big (by norm_num)
    (rneInt_tie_even _ 4503599627370496 (by norm_num) (by norm_num) (by norm_num))]
  norm_num

theorem batches_eval (n b v : ℕ) (h : pyFloatDiv n b = (v : ℚ)) : batches n b = v := by
  unfold batches pyTrunc
  rw [h, if_pos (by positivity), Int.floor_natCast, Int.toNat_natCast]

theorem batches_5_1 : batches 5 1 = 5 :=
  batches_eval 5 1 5 (by rw [pyFloatDiv_5_1]; norm_num)

theorem batches_6_2 : batches 6 2 = 3 :=
  batches_eval 6 2 3 (by rw [pyFloatDiv_6_2]; norm_num)

theorem batches_big : batches 9007199254740993 1 = 9007199254740992 :=
  batches_eval 9007199254740993 1 9007199254740992 (by rw [pyFloatDiv_big]; norm_num)

theorem f32_1 : f32 1 = 1 := by
  unfold f32
  rw [roundFloat_eval 24 (-149) 0 (-23) (2 ^ 23) 1 (by norm_num) qexp_1
    (by norm_num) (rneInt_intCast _ _ (by push_cast; norm_num))]
  push_cast
  norm_num

theorem f32_4 : f32 4 = 4 := by
  unfold f32
  rw [roundFloat_eval 24 (-149) 2 (-21) (4 * 2 ^ 21) 4 (by norm_num) qexp_4
    (by norm_num) (rneInt_intCast _ _ (by push_cast; norm_num))]
  push_cast
  norm_num

/-! ### Runner lemmas -/

theorem batches_eq_floor_of_exact (n b : ℕ)
    (h : pyFloatDiv n b = (n : ℚ) / (b : ℚ)) : batches n b = n / b := by
  unfold batches pyTrunc
  rw [h, if_pos (by positivity), Int.floor_toNat, Nat.floor_div_nat, Nat.floor_natCast]

theorem range_map_shift {β : Type} (g : ℕ → β) (m i : ℕ) :
    (List.range (m + 1)).map (fun j => g (i + j))
      = g i :: (List.range m).map (fun j => g ((i + 1) + j)) := by
  rw [List.range_succ_eq_map]
  simp only [List.map_cons, Nat.add_zero, List.map_map]
  congr 1
  apply List.map_congr_left
  intro j _
  simp only [Function.comp_apply, Nat.succ_eq_add_one]
  congr 1
  omega

theorem runBatchedGo_rowPredictor {α ε : Type} (f : α → PredictionResult) (X : List α)
    (b : ℕ) : ∀ (m i : ℕ) (acc : List ℚ),
    runBatchedGo (ε := ε) (rowPredictor f) X b i m acc
      = .ok (acc ++ ((X.drop (i * b)).take (m * b)).map (fun r => (f r).predicted_label)) := by
  intro m
  induction m with
  | zero => intro i acc; simp [runBatchedGo]
  | succ m ih =>
    intro i acc
    rw [runBatchedGo]
    show runBatchedGo (rowPredictor f) X b (i + 1) m
        (acc ++ ((batchSlice X b i).map f).map (fun r => r.predicted_label)) = _
    rw [ih (i + 1)]
    rw [show (m + 1) * b = b + m * b by ring, List.take_add, List.drop_drop,
      show i * b + b = (i + 1) * b by ring]
    simp [batchSlice, List.map_map, List.map_append, List.append_assoc, Function.comp_def]

theorem submittedGo_rowPredictor {α ε : Type} (f : α → PredictionResult) (X : List α)
    (b : ℕ) : ∀ (m i : ℕ),
    submittedGo (ε := ε) (rowPredictor f) X b i m
      = (List.range m).map (fun j => batchSlice X b (i + j)) := by
  intro m
  induction m with
  | zero => intro i; simp [submittedGo]
  | succ m ih =>
    intro i
    rw [submittedGo]
    show batchSlice X b i :: submittedGo (rowPredictor f) X b (i + 1) m = _
    rw [ih (i + 1), range_map_shift]

theorem flatten_batchSlices {α : Type} (X : List α) (b : ℕ) :
    ∀ (m i : ℕ), ((List.range m).map (fun j => batchSlice X b (i + j))).flatten
      = (X.drop (i * b)).take (m * b) := by
  intro m
  induction m with
  | zero => intro i; simp
  | succ m ih =>
    intro i
    rw [range_map_shift, List.flatten_cons, ih (i + 1),
      show (m + 1) * b = b + m * b by ring, List.take_add, List.drop_drop,
      show i * b + b = (i + 1) * b by ring]
    rfl

theorem batchSlice_length {α : Type} (X : List α) (b i : ℕ) (hb : 0 < b)
    (hi : i < X.length / b) : (batchSlice X b i).length = b := by
  have h1 : (i + 1) * b ≤ (X.length / b) * b := Nat.mul_le_mul_right b hi
  have h2 : (X.length / b) * b ≤ X.length := Nat.div_mul_le_self _ _
  have h3 : (i + 1) * b = i * b + b := by ring
  simp only [batchSlice, List.length_take, List.length_drop]
  omega

theorem runBatchedGo_error {α ε : Type} (predict : List α → Except ε (List PredictionResult))
    (X : List α) (b : ℕ) (e : ε) :
    ∀ (k m i : ℕ) (acc : List ℚ), k < m →
      (∀ j, j < k → ∃ rs, predict (batchSlice X b (i + j)) = .ok rs) →
      predict (batchSlice X b (i + k)) = .error e →
      runBatchedGo predict X b i m acc = .error e := by
  intro k
  induction k with
  | zero =>
    intro m i acc hm _ herr
    match m, hm with
    | m + 1, _ =>
      rw [runBatchedGo]
      rw [show i + 0 = i from rfl] at herr
      rw [herr]
  | succ k ih =>
    intro m i acc hm hok herr
    match m, hm with
    | m + 1, _ =>
      obtain ⟨rs, hrs⟩ := hok 0 (Nat.succ_pos k)
      rw [runBatchedGo]
      rw [show i + 0 = i from rfl] at hrs
      rw [hrs]
      apply ih m (i + 1) _ (by omega)
      · intro j hj
        obtain ⟨rs', hrs'⟩ := hok (j + 1) (by omega)
        exact ⟨rs', by rw [show i + 1 + j = i + (j + 1) by omega]; exact hrs'⟩
      · rw [show i + 1 + k = i + (k + 1) by omega]
        exact herr

theorem submittedGo_error {α ε : Type} (predict : List α → Except ε (List PredictionResult))
    (X : List α) (b : ℕ) (e : ε) :
    ∀ (k m i : ℕ), k < m →
      (∀ j, j < k → ∃ rs, predict (batchSlice X b (i + j)) = .ok rs) →
      predict (batchSlice X b (i + k)) = .error e →
      submittedGo predict X b i m = (List.range (k + 1)).map (fun j => batchSlice X b (i + j)) := by
  intro k
  induction k with
  | zero =>
    intro m i hm _ herr
    match m, hm with
    | m + 1, _ =>
      rw [submittedGo]
      rw [show i + 0 = i from rfl] at herr
      rw [herr, range_map_shift]
      simp
  | succ k ih =>
    intro m i hm hok herr
    match m, hm with
    | m + 1, _ =>
      obtain ⟨rs, hrs⟩ := hok 0 (Nat.succ_pos k)
      rw [submittedGo]
      rw [show i + 0 = i from rfl] at hrs
      rw [hrs]
      show batchSlice X b i :: submittedGo predict X b (i + 1) m = _
      have hrec := ih m (i + 1) (by omega)
        (fun j hj => by
          obtain ⟨rs', hrs'⟩ := hok (j + 1) (by omega)
          exact ⟨rs', by rw [show i + 1 + j = i + (j + 1) by omega]; exact hrs'⟩)
        (by rw [show i + 1 + k = i + (k + 1) by omega]; exact herr)
      rw [hrec]
      conv_rhs => rw [range_map_shift, range_map_shift]
      rw [range_map_shift]

/-! ### Codec lemmas -/

theorem parseNats_map : ∀ l : List ℕ, parseNats (l.map WireWord.int) = some l := by
  intro l
  induction l with
  | nil => rfl
  | cons x xs ih => simp [parseNats, ih]

theorem parseFlts_map : ∀ l : List ℚ, parseFlts (l.map WireWord.flt) = some l := by
  intro l
  induction l with
  | nil => rfl
  | cons x xs ih => simp [parseFlts, ih]

theorem parsePayload_recordPayload (r : SparseRow)
    (hlen : r.indices.length = r.values.length)
    (hbound : ∀ i ∈ r.indices, i < r.featureCount) :
    parsePayload (recordPayload r) = .ok (f32Row r) := by
  have hAlen : (r.indices.map WireWord.int).length = r.indices.length :=
    List.length_map _ _
  have hBlen : (r.values.map (fun v => WireWord.flt (f32 v))).length = r.indices.length := by
    rw [List.length_map, hlen]
  have h1 : ((r.indices.map WireWord.int
        ++ r.values.map (fun v => WireWord.flt (f32 v))
        ++ [WireWord.flt (f32 r.label)])).take r.indices.length
      = r.indices.map WireWord.int := by
    rw [List.append_assoc, ← hAlen, List.take_left]
  have h2 : ((r.indices.map WireWord.int
        ++ r.values.map (fun v => WireWord.flt (f32 v))
        ++ [WireWord.flt (f32 r.label)])).drop r.indices.length
      = r.values.map (fun v => WireWord.flt (f32 v)) ++ [WireWord.flt (f32 r.label)] := by
    rw [List.append_assoc, ← hAlen, List.drop_left]
  have h3 : (r.values.map (fun v => WireWord.flt (f32 v))
        ++ [WireWord.flt (f32 r.label)]).take r.indices.length
      = r.values.map (fun v => WireWord.flt (f32 v)) := by
    rw [← hBlen, List.take_left]
  have h4 : ((r.indices.map WireWord.int
        ++ r.values.map (fun v => WireWord.flt (f32 v))
        ++ [WireWord.flt (f32 r.label)])).drop (2 * r.indices.length)
      = [WireWord.flt (f32 r.label)] := by
    rw [two_mul, ← List.drop_drop, h2, ← hBlen, List.drop_left]
  have hvals : r.values.map (fun v => WireWord.flt (f32 v))
      = (r.values.map f32).map WireWord.flt := by
    rw [List.map_map]; rfl
  simp only [recordPayload, parsePayload, h1, h2, h3, h4, parseNats_map]
  rw [hvals, parseFlts_map]
  simp [f32Row, List.length_map, hlen.symm, hbound]
  exact hbound

theorem splitRecords_flatten : ∀ (rows : List SparseRow) (fuel : ℕ),
    ((rows.map encodeRow).flatten).length ≤ fuel →
    splitRecords fuel ((rows.map encodeRow).flatten) = .ok (rows.map recordPayload) := by
  intro rows
  induction rows with
  | nil =>
    intro fuel _
    cases fuel <;> rfl
  | cons r rows ih =>
    intro fuel hfuel
    rw [List.map_cons, List.flatten_cons] at hfuel ⊢
    rw [encodeRow] at hfuel ⊢
    match fuel, hfuel with
    | fuel + 1, hfuel =>
      rw [List.cons_append, splitRecords]
      rw [if_pos (by simp [List.length_append])]
      rw [List.take_left, List.drop_left]
      rw [ih fuel (by simp [List.length_append] at hfuel ⊢; omega)]
      rfl

theorem parseRecords_map (rows : List SparseRow)
    (h : ∀ r ∈ rows, r.indices.length = r.values.length ∧ ∀ i ∈ r.indices, i < r.featureCount) :
    parseRecords (rows.map recordPayload) = .ok (rows.map f32Row) := by
  induction rows with
  | nil => rfl
  | cons r rows ih =>
    rw [List.map_cons, List.map_cons, parseRecords,
      parsePayload_recordPayload r (h r (List.mem_cons_self r rows)).1
        (h r (List.mem_cons_self r rows)).2,
      ih (fun r' hr' => h r' (List.mem_cons_of_mem r hr'))]

theorem encode_wf (d : SparseDataset) (hwf : d.wf) :
    encode d = .ok ((d.rows.map encodeRow).flatten) := by
  obtain ⟨hne, hrows⟩ := hwf
  unfold encode
  rw [if_pos ⟨hne, fun r hr =>
    ⟨(hrows r hr).1, (hrows r hr).2.1, (hrows r hr).2.2.1⟩⟩]

theorem decode_encode_wf (d : SparseDataset) (hwf : d.wf) :
    decode ((d.rows.map encodeRow).flatten) = .ok (f32Dataset d) := by
  obtain ⟨hne, hrows⟩ := hwf
  unfold decode
  rw [splitRecords_flatten d.rows _ (le_refl _)]
  dsimp only
  rw [parseRecords_map d.rows (fun r hr => ⟨(hrows r hr).2.1, (hrows r hr).2.2.2⟩)]
  dsimp only
  obtain ⟨fc, rows⟩ := d
  cases rows with
  | nil => exact absurd rfl hne
  | cons r0 rest =>
    have hfc : ∀ r ∈ (r0 :: rest : List SparseRow), r.featureCount = fc := by
      intro r hr
      exact (hrows r hr).1
    have hcond : ∀ r ∈ (r0 :: rest : List SparseRow).map f32Row,
        r.featureCount = (f32Row r0).featureCount := by
      intro r hr
      rcases List.mem_map.mp hr with ⟨r', hr', rfl⟩
      show r'.featureCount = r0.featureCount
      rw [hfc r' hr', hfc r0 (List.mem_cons_self r0 rest)]
    rw [List.map_cons] at hcond ⊢
    dsimp only
    rw [if_pos hcond]
    have h0 : (f32Row r0).featureCount = fc := hfc r0 (List.mem_cons_self r0 rest)
    simp only [f32Dataset, List.map_cons]
    rw [h0]

theorem submittedSlices_ok {α ε : Type} (f : α → PredictionResult) (X : List α) (b : ℕ) :
    submittedSlices (ε := ε) X b (rowPredictor f)
      = (List.range (batches X.length b)).map (fun i => batchSlice X b i) := by
  unfold submittedSlices
  rw [submittedGo_rowPredictor]
  simp

theorem flatten_batchSlices_zero {α : Type} (X : List α) (b m : ℕ) :
    ((List.range m).map (fun i => batchSlice X b i)).flatten = X.take (m * b) := by
  have h := flatten_batchSlices X b m 0
  simpa using h

theorem runBatched_rowPredictor {α ε : Type} (f : α → PredictionResult) (X : List α) (b : ℕ) :
    runBatched (ε := ε) X b (rowPredictor f)
      = .ok ((X.take (batches X.length b * b)).map (fun r => (f r).predicted_label)) := by
  unfold runBatched
  rw [runBatchedGo_rowPredictor]
  simp

/-! ### Accuracy lemmas -/

theorem matchCount_le (p a : List ℚ) : matchCount p a ≤ a.length := by
  unfold matchCount npSum
  refine le_trans (List.count_le_length _ _) ?_
  rw [List.length_zipWith]
  exact min_le_left _ _

theorem computeAccuracy_exact : computeAccuracy [4, 5, 3] [4, 5, 3] = .ok (.num 1) := by
  unfold computeAccuracy npEqList npSum
  norm_num [List.zipWith, List.count_cons]

theorem computeAccuracy_twothirds :
    computeAccuracy [4, 5, 3] [4, 5, 2] = .ok (.num (2 / 3)) := by
  unfold computeAccuracy npEqList npSum
  norm_num [List.zipWith, List.count_cons]

theorem pyFloatDiv_6_2_cast : pyFloatDiv 6 2 = ((6 : ℕ) : ℚ) / ((2 : ℕ) : ℚ) := by
  rw [pyFloatDiv_6_2]
  norm_num

theorem exampleDataset_wf : exampleDataset.wf := by
  constructor
  · simp [exampleDataset]
  · intro r hr
    simp only [exampleDataset, List.mem_singleton] at hr
    subst hr
    exact ⟨rfl, rfl, by decide, by decide⟩

theorem exampleDataset_f32Exact : exampleDataset.f32Exact := by
  intro r hr
  simp only [exampleDataset, List.mem_singleton] at hr
  subst hr
  constructor
  · intro v hv
    have : v = 1 := by
      simpa [exampleRow] using hv
    rw [this]
    exact f32_1
  · exact f32_4

/-! ### Claims -/

/-- C1, corrected.  As stated the claim is false: the batch count is
`int(len(d)/batchSize)` computed by binary64 true division, which differs from
`floor(len(d)/batchSize)` for some huge datasets (see the counterexample and C9).
Amended claim: whenever the float-computed batch count equals
`floor(len(d)/batchSize)` — which holds in particular for every dataset with
fewer than 2^53 rows — `runBatched` partitions the dataset into exactly
`floor(len(d)/batchSize)` sequential, non-overlapping, contiguous batches of
exactly `batchSize` rows each (batch `i` covering rows `i*batchSize` through
`(i+1)*batchSize - 1`), and rows at positions at or past
`floor(len(d)/batchSize) * batchSize` are never submitted to `predict`:
the submitted slices are exactly `X[i*b:(i+1)*b]` for `i < len/b`, each of length
`b`, and their concatenation is the first `floor(len/b)*b` rows of the dataset. -/
theorem c1_batch_partition {α ε : Type} (X : List α) (b : ℕ) (f : α → PredictionResult)
    (hb : 0 < b) (hexact : batches X.length b = X.length / b) :
    submittedSlices (ε := ε) X b (rowPredictor f)
        = (List.range (X.length / b)).map (fun i => batchSlice X b i)
      ∧ (∀ s ∈ submittedSlices (ε := ε) X b (rowPredictor f), s.length = b)
      ∧ (submittedSlices (ε := ε) X b (rowPredictor f)).flatten
          = X.take ((X.length / b) * b) := by
  have hchar := submittedSlices_ok (ε := ε) f X b
  rw [hexact] at hchar
  refine ⟨hchar, ?_, ?_⟩
  · intro s hs
    rw [hchar] at hs
    rcases List.mem_map.mp hs with ⟨i, hi, rfl⟩
    exact batchSlice_length X b i hb (List.mem_range.mp hi)
  · rw [hchar, flatten_batchSlices_zero]

theorem c1_batch_partition_witness :
    (submittedSlices (ε := Unit) ([10, 20, 30, 40, 50, 60] : List ℕ) 2
        (rowPredictor (fun n => ⟨(n : ℚ), 0⟩))).flatten
      = ([10, 20, 30, 40, 50, 60] : List ℕ).take
          ((([10, 20, 30, 40, 50, 60] : List ℕ).length / 2) * 2) :=
  (c1_batch_partition ([10, 20, 30, 40, 50, 60] : List ℕ) 2 (fun n : ℕ => ⟨(n : ℚ), 0⟩)
    (by decide) (by simp [batches_6_2])).2.2

/-- C1 counterexample: for a dataset of `2^53 + 1` rows and `batchSize = 1`, the
code computes `int((2^53+1)/1) = 2^53` batches (the float quotient rounds down to
even), so the number of submitted batches is not `floor(len/batchSize) = 2^53+1`
as the claim states. -/
theorem c1_batch_partition_counterexample :
    (submittedSlices (ε := Unit) (List.replicate 9007199254740993 (0 : ℕ)) 1
        (rowPredictor (fun n => ⟨(n : ℚ), 0⟩))).length
      ≠ (List.replicate 9007199254740993 (0 : ℕ)).length / 1 := by
  rw [submittedSlices_ok, List.length_map, List.length_range, List.length_replicate,
    batches_big]
  norm_num

/-- C4, confirmed.  For a conforming remote predictor (one result per submitted
row, in row order — the §3 contract, modelled by `rowPredictor f`), the sequence
returned by `runBatched` is exactly the predicted labels of the submitted rows in
dataset order: the j-th returned value is the predicted label of the j-th
submitted row, and the returned length equals the number of rows actually
submitted across all batches. -/
theorem c4_order_preservation {α ε : Type} (X : List α) (b : ℕ)
    (f : α → PredictionResult) (hb : 0 < b) :
    runBatched (ε := ε) X b (rowPredictor f)
        = .ok (((submittedSlices (ε := ε) X b (rowPredictor f)).flatten).map
            (fun r => (f r).predicted_label))
      ∧ ∀ L : List ℚ, runBatched (ε := ε) X b (rowPredictor f) = .ok L →
          L.length = ((submittedSlices (ε := ε) X b (rowPredictor f)).flatten).length := by
  have h1 : runBatched (ε := ε) X b (rowPredictor f)
      = .ok (((submittedSlices (ε := ε) X b (rowPredictor f)).flatten).map
          (fun r => (f r).predicted_label)) := by
    rw [runBatched_rowPredictor, submittedSlices_ok, flatten_batchSlices_zero]
  refine ⟨h1, ?_⟩
  intro L hL
  rw [h1] at hL
  injection hL with h
  rw [← h, List.length_map]

theorem c4_order_preservation_witness :
    runBatched (ε := Unit) ([1, 2, 3, 4, 5] : List ℚ) 1
        (rowPredictor (fun q : ℚ => ⟨q, 0⟩))
      = .ok (((submittedSlices (ε := Unit) ([1, 2, 3, 4, 5] : List ℚ) 1
          (rowPredictor (fun q : ℚ => ⟨q, 0⟩))).flatten).map
            (fun r => ((⟨r, 0⟩ : PredictionResult)).predicted_label)) :=
  (c4_order_preservation ([1, 2, 3, 4, 5] : List ℚ) 1 (fun q : ℚ => ⟨q, 0⟩)
    (by decide)).1

/-- C6, corrected.  As stated the claim is false: the loop of cell-50 has no
exception handler, so a failure of `predict` on batch `k` propagates the raw
underlying failure unchanged — it is not wrapped in a `PredictionError` and
carries neither the batch index nor the row range (see the counterexample: stubs
failing at different batch indices produce identical outcomes).  Amended claim:
if `predict` succeeds on batches `0..k-1` and raises on batch `k` (with
`k < batches`), `runBatched` surfaces the underlying failure itself, performs no
retry, submits exactly batches `0..k` once each in order (no batch after `k` is
submitted), and does not return the results of batches `0..k-1` as a partial
success (the outcome is the bare error). -/
theorem c6_failfast {α ε : Type} (X : List α) (b : ℕ)
    (predict : List α → Except ε (List PredictionResult)) (e : ε) (k : ℕ)
    (hk : k < batches X.length b)
    (hok : ∀ j, j < k → ∃ rs, predict (batchSlice X b j) = .ok rs)
    (herr : predict (batchSlice X b k) = .error e) :
    runBatched X b predict = .error e
      ∧ submittedSlices X b predict
          = (List.range (k + 1)).map (fun j => batchSlice X b j) := by
  constructor
  · unfold runBatched
    exact runBatchedGo_error predict X b e k _ 0 [] hk
      (fun j hj => by simpa using hok j hj) (by simpa using herr)
  · unfold submittedSlices
    rw [submittedGo_error predict X b e k _ 0 hk
      (fun j hj => by simpa using hok j hj) (by simpa using herr)]
    simp

theorem c6_failfast_witness :
    runBatched ([0, 1, 2, 3, 4] : List ℕ) 1 (stubFailAt 2) = .error "boom" :=
  (c6_failfast ([0, 1, 2, 3, 4] : List ℕ) 1 (stubFailAt 2) "boom" 2
    (by simp [batches_5_1])
    (fun j hj =>
      match j, hj with
      | 0, _ => ⟨_, rfl⟩
      | 1, _ => ⟨_, rfl⟩)
    rfl).1

/-- C6 counterexample: stub predictors that fail on batch index 2 and on batch
index 3 produce the same outcome `Except.error "boom"` — the surfaced error is the
raw underlying failure and carries no `PredictionError` wrapper, no batch index
and no row range, contradicting the claim that the error wraps the batch index
and row range attempted. -/
theorem c6_failfast_counterexample :
    runBatched ([0, 1, 2, 3, 4] : List ℕ) 1 (stubFailAt 2)
        = runBatched ([0, 1, 2, 3, 4] : List ℕ) 1 (stubFailAt 3)
      ∧ runBatched ([0, 1, 2, 3, 4] : List ℕ) 1 (stubFailAt 2) = .error "boom" := by
  have h2 : runBatched ([0, 1, 2, 3, 4] : List ℕ) 1 (stubFailAt 2) = .error "boom" := by
    unfold runBatched
    exact runBatchedGo_error (stubFailAt 2) _ 1 "boom" 2 _ 0 [] (by simp [batches_5_1])
      (fun j hj =>
        match j, hj with
        | 0, _ => ⟨_, rfl⟩
        | 1, _ => ⟨_, rfl⟩)
      rfl
  have h3 : runBatched ([0, 1, 2, 3, 4] : List ℕ) 1 (stubFailAt 3) = .error "boom" := by
    unfold runBatched
    exact runBatchedGo_error (stubFailAt 3) _ 1 "boom" 3 _ 0 [] (by simp [batches_5_1])
      (fun j hj =>
        match j, hj with
        | 0, _ => ⟨_, rfl⟩
        | 1, _ => ⟨_, rfl⟩
        | 2, _ => ⟨_, rfl⟩)
      rfl
  exact ⟨by rw [h2, h3], h2⟩

/-- C9, confirmed.  The batch count of cell-50 is `int(X_pred.shape[0]/batch_size)`
with Python 3 true division: the exact quotient is rounded to binary64 and then
truncated.  Whenever the quotient is exactly representable in binary64 (the float
division is exact), this equals the integer floor `n / b`; but for
`n = 2^53 + 1, b = 1` the rounded quotient is `2^53`, so the number of batches
submitted is `2^53`, one less than the exact floor `2^53 + 1`. -/
theorem c9_float_division_batches :
    (∀ n b : ℕ, 0 < b → pyFloatDiv n b = (n : ℚ) / (b : ℚ) → batches n b = n / b)
      ∧ batches 9007199254740993 1 ≠ 9007199254740993 / 1
      ∧ batches 9007199254740993 1 = 9007199254740992 := by
  refine ⟨fun n b _ h => batches_eq_floor_of_exact n b h, ?_, batches_big⟩
  rw [batches_big]
  norm_num

theorem c9_float_division_batches_witness : batches 6 2 = 6 / 2 :=
  c9_float_division_batches.1 6 2 (by decide) pyFloatDiv_6_2_cast

/-- C10, confirmed.  The accumulated output of the loop keeps only the
`predicted_label` of each result: the j-th element of the output is the predicted
label of the j-th submitted row, and the `score` component does not influence the
output — two conforming predictors that agree on `predicted_label` but differ
arbitrarily in `score` produce identical outputs. -/
theorem c10_label_projection {α ε : Type} (X : List α) (b : ℕ)
    (f g : α → PredictionResult) (hb : 0 < b)
    (hfg : ∀ r, (f r).predicted_label = (g r).predicted_label) :
    runBatched (ε := ε) X b (rowPredictor f) = runBatched (ε := ε) X b (rowPredictor g)
      ∧ runBatched (ε := ε) X b (rowPredictor f)
          = .ok ((X.take (batches X.length b * b)).map (fun r => (f r).predicted_label)) := by
  refine ⟨?_, runBatched_rowPredictor f X b⟩
  rw [runBatched_rowPredictor, runBatched_rowPredictor]
  congr 1
  exact List.map_congr_left (fun r _ => hfg r)

theorem c10_label_projection_witness :
    runBatched (ε := Unit) ([1, 2, 3, 4] : List ℚ) 2
        (rowPredictor (fun q : ℚ => ⟨q, 1⟩))
      = runBatched (ε := Unit) ([1, 2, 3, 4] : List ℚ) 2
          (rowPredictor (fun q : ℚ => ⟨q, 2⟩)) :=
  (c10_label_projection ([1, 2, 3, 4] : List ℚ) 2 (fun q : ℚ => ⟨q, 1⟩)
    (fun q : ℚ => ⟨q, 2⟩) (by decide) (fun r => rfl)).1

/-- C3, corrected.  As stated the claim is false at the empty pair: for
`len(Y_pred) = 0` the NumPy scalar division `0/0` yields `nan` (with a runtime
warning, not an exception), which is not a number in `[0,1]` (see the
counterexample).  Amended claim: for every pair of equal-length *nonempty* label
sequences, `computeAccuracy` returns exactly the number of positions with
`predicted[i] == actual[i]` (exact equality, not tolerance-based) divided by the
common length, the result lies in `[0,1]`, and in particular
`computeAccuracy([4,5,3],[4,5,3]) == 1.0` and
`computeAccuracy([4,5,3],[4,5,2]) == 2/3`. -/
theorem c3_accuracy (p a : List ℚ) (hlen : p.length = a.length) (hne : a ≠ []) :
    computeAccuracy p a = .ok (.num ((matchCount p a : ℚ) / (a.length : ℚ)))
      ∧ 0 ≤ (matchCount p a : ℚ) / (a.length : ℚ)
      ∧ (matchCount p a : ℚ) / (a.length : ℚ) ≤ 1
      ∧ computeAccuracy [4, 5, 3] [4, 5, 3] = .ok (.num 1)
      ∧ computeAccuracy [4, 5, 3] [4, 5, 2] = .ok (.num (2 / 3)) := by
  have hlen0 : a.length ≠ 0 := by
    simpa [List.length_eq_zero] using hne
  refine ⟨?_, ?_, ?_, computeAccuracy_exact, computeAccuracy_twothirds⟩
  · unfold computeAccuracy npEqList
    rw [if_pos hlen.symm]
    dsimp only
    rw [if_neg hlen0]
    rfl
  · exact div_nonneg (Nat.cast_nonneg _) (Nat.cast_nonneg _)
  · rw [div_le_one (by exact_mod_cast Nat.pos_of_ne_zero hlen0)]
    exact_mod_cast matchCount_le p a

theorem c3_accuracy_witness :
    computeAccuracy [4, 5, 3] [4, 5, 3]
      = .ok (.num ((matchCount [4, 5, 3] [4, 5, 3] : ℚ)
          / (([4, 5, 3] : List ℚ).length : ℚ))) :=
  (c3_accuracy [4, 5, 3] [4, 5, 3] rfl (by simp)).1

/-- C3 counterexample: on the empty pair (equal lengths, both zero) the code
returns `nan` — `np.sum([] == []) = 0` divided by `len([]) = 0` — which is not a
number in the unit interval, so the claim as stated fails for the equal-length
pair `([], [])`. -/
theorem c3_accuracy_counterexample :
    computeAccuracy ([] : List ℚ) ([] : List ℚ) = .ok PyNum.nan
      ∧ ¬ isUnitNum (computeAccuracy ([] : List ℚ) ([] : List ℚ)) := by
  have h : computeAccuracy ([] : List ℚ) ([] : List ℚ) = .ok PyNum.nan := by
    unfold computeAccuracy npEqList
    simp
  exact ⟨h, by rw [h]; exact fun hh => hh⟩

/-- C7, corrected.  As stated the claim is false: when one of the two sequences
has length 1, NumPy broadcasts it against the other and the expression returns a
number instead of raising (see the counterexample, which even escapes `[0,1]`
semantics by dividing by `len(Y_pred)`).  Amended claim: for every pair of label
sequences of unequal length *neither of which has length 1*, the elementwise
comparison fails to broadcast and the expression raises (modern NumPy raises a
broadcast `ValueError`; the notebook has no `ValidationError` of its own). -/
theorem c7_length_mismatch (p a : List ℚ) (hne : p.length ≠ a.length)
    (hp1 : p.length ≠ 1) (ha1 : a.length ≠ 1) :
    computeAccuracy p a = .error NpError.broadcastMismatch := by
  unfold computeAccuracy npEqList
  rw [if_neg (fun hh => hne hh.symm)]
  match a, p, hne, hp1, ha1 with
  | [], [], hne, _, _ => exact absurd rfl hne
  | [], [y], _, hp1, _ => exact absurd rfl hp1
  | [], y1 :: y2 :: ys, _, _, _ => rfl
  | [x], _, _, _, ha1 => exact absurd rfl ha1
  | x1 :: x2 :: xs, [], _, _, _ => rfl
  | x1 :: x2 :: xs, [y], _, hp1, _ => exact absurd rfl hp1
  | x1 :: x2 :: xs, y1 :: y2 :: ys, _, _, _ => rfl

theorem c7_length_mismatch_witness :
    computeAccuracy ([1, 2] : List ℚ) ([1, 2, 3] : List ℚ)
      = .error NpError.broadcastMismatch :=
  c7_length_mismatch ([1, 2] : List ℚ) ([1, 2, 3] : List ℚ)
    (by simp) (by simp) (by simp)

/-- C7 counterexample: the pair `([4], [4,4,5])` has unequal lengths `1` and `3`,
yet the code does not raise — NumPy broadcasts the singleton, two of the three
comparisons match, and the expression returns `2/3`. -/
theorem c7_length_mismatch_counterexample :
    computeAccuracy ([4] : List ℚ) ([4, 4, 5] : List ℚ) = .ok (.num (2 / 3)) := by
  unfold computeAccuracy npEqList npSum
  norm_num [List.count_cons]

/-- C2, confirmed (spec-modelled: the byte-level writer and the paired decoder
are not in this repository; both are modelled from the record format of §6).
For every valid dataset, `encode` succeeds and produces the concatenation of the
length-prefixed records in row order, and `decode` of that stream reconstructs
the dataset element-wise — same feature count, same indices, same values and
label per row — up to the binary32 quantization of on-wire values; in particular
when every value and label is exactly representable at the chosen 32-bit width,
`decode (encode d)` returns `d` itself. -/
theorem c2_roundtrip (d : SparseDataset) (hwf : d.wf) :
    encode d = .ok ((d.rows.map encodeRow).flatten)
      ∧ decode ((d.rows.map encodeRow).flatten) = .ok (f32Dataset d)
      ∧ (d.f32Exact → f32Dataset d = d) := by
  refine ⟨encode_wf d hwf, decode_encode_wf d hwf, ?_⟩
  intro hex
  have hmap : d.rows.map f32Row = d.rows := by
    conv_rhs => rw [← List.map_id d.rows]
    apply List.map_congr_left
    intro r hr
    obtain ⟨hvals, hlab⟩ := hex r hr
    show f32Row r = r
    unfold f32Row
    have hv : r.values.map f32 = r.values := by
      conv_rhs => rw [← List.map_id r.values]
      exact List.map_congr_left (fun v hvm => hvals v hvm)
    rw [hv, hlab]
  show (⟨d.featureCount, d.rows.map f32Row⟩ : SparseDataset) = d
  rw [hmap]

theorem c2_roundtrip_witness :
    exampleDataset.wf
      ∧ decode ((exampleDataset.rows.map encodeRow).flatten)
          = .ok (f32Dataset exampleDataset)
      ∧ f32Dataset exampleDataset = exampleDataset :=
  ⟨exampleDataset_wf,
    (c2_roundtrip exampleDataset exampleDataset_wf).2.1,
    (c2_roundtrip exampleDataset exampleDataset_wf).2.2 exampleDataset_f32Exact⟩

/-- C5, confirmed.  In the effect-trace model of cell-35 (each statement of
`writeDatasetToProtobuf` contributes its external effects: the in-memory
`BytesIO` buffer and the `smac` serialization contribute none), the encoding step
is a pure function of the dataset — it performs no network or disk I/O and leaves
the dataset unchanged — and the entire pipeline performs exactly one external
effect: the upload of the unmodified encoded stream by the external persistence
collaborator (`boto3 ... upload_fileobj`), under the caller-supplied location
`'{prefix}/{key}'`. -/
theorem c5_encode_no_io (d : SparseDataset) (bucket pfx key : String)
    (stream : List WireWord) (henc : encode d = .ok stream) :
    writeDatasetToProtobuf d bucket pfx key
      = .ok ("s3://" ++ bucket ++ "/" ++ (pfx ++ "/" ++ key),
          [Effect.s3Upload bucket (pfx ++ "/" ++ key) stream]) := by
  unfold writeDatasetToProtobuf
  rw [henc]

theorem c5_encode_no_io_witness :
    writeDatasetToProtobuf exampleDataset "bkt" "protobuf" "train"
      = .ok ("s3://" ++ "bkt" ++ "/" ++ ("protobuf" ++ "/" ++ "train"),
          [Effect.s3Upload "bkt" ("protobuf" ++ "/" ++ "train")
            ((exampleDataset.rows.map encodeRow).flatten)]) :=
  c5_encode_no_io exampleDataset "bkt" "protobuf" "train"
    ((exampleDataset.rows.map encodeRow).flatten)
    (encode_wf exampleDataset exampleDataset_wf)

/-- C8, confirmed (spec-modelled encoder, see C2).  The encoded record of a row
with `k` nonzero entries occupies `2k + 4` wire words — length prefix, feature
count, nonzero count, `k` indices, `k` values, label — a function of `k` alone:
changing `featureCount` leaves the record size unchanged, and for
`featureCount = 100000` with `k = 2` the record is `8` words, far below the
`100000` entries a dense row would hold. -/
theorem c8_record_size (r : SparseRow) (hlen : r.indices.length = r.values.length) :
    (encodeRow r).length = 2 * r.indices.length + 4
      ∧ (∀ fc : ℕ,
          (encodeRow ⟨fc, r.indices, r.values, r.label⟩).length = (encodeRow r).length)
      ∧ (encodeRow (⟨100000, [1, 7], [1, 1], 4⟩ : SparseRow)).length = 2 * 2 + 4
      ∧ 2 * 2 + 4 < 100000 := by
  have hsize : ∀ rr : SparseRow, rr.indices.length = rr.values.length →
      (encodeRow rr).length = 2 * rr.indices.length + 4 := by
    intro rr hh
    simp [encodeRow, recordPayload, List.length_append, List.length_map]
    omega
  refine ⟨hsize r hlen, fun fc => ?_, ?_, by norm_num⟩
  · rw [hsize ⟨fc, r.indices, r.values, r.label⟩ hlen, hsize r hlen]
  · rw [hsize ⟨100000, [1, 7], [1, 1], 4⟩ rfl]
    rfl

theorem c8_record_size_witness :
    (encodeRow exampleRow).length = 2 * exampleRow.indices.length + 4 :=
  (c8_record_size exampleRow rfl).1
